import Mathlib

/-!
Shallow embedding of the ALTA core (streaming packet authentication, a=3, p=5)
and proofs about it. The model follows `src/lib.rs` and `src/buffer/{mod,send_buf,
recv_buf,bytes}.rs`. `u64` identifiers are modelled as `Nat` (the source's
`checked_sub` becomes an explicit guard; `checked_add` cannot fail on `Nat`);
byte arrays are `List Nat`; fallible operations return `Except Error Unit`
together with the post-state of the buffer, since the Rust methods mutate in
place even when they return an error.
-/

namespace Alta

/-- Mirrors `State` in `src/lib.rs`. -/
inductive State where
  | NotReady
  | ReadySent
  | Authenticated
  | BadAuthentication
  deriving DecidableEq, Repr

/-- Mirrors `Error` in `src/lib.rs`. -/
inductive Error where
  | OutOfBoundId
  | MissingHash
  | IllegalInsert
  | BufferFull
  | BadAuthentication
  | NotAuthenticated
  | Decoding
  deriving DecidableEq, Repr

deriving instance DecidableEq for Except

/-- Constant `BUFF_SIZE = (ALTA_A * ALTA_P + 1) * 2` from `src/buffer/mod.rs` (= 32). -/
def BUFF_SIZE : Nat := (3 * 5 + 1) * 2

/-- Mirrors `BufferEntry` in `src/buffer/mod.rs`. Hashes are 32-byte values and
the signature is a 64-byte value in the source; here both are byte lists. -/
structure BufferEntry where
  hashes : List (List Nat)
  signature : Option (List Nat)
  id : Nat
  payload : Option (List Nat)
  dependencies : List Nat
  state : State
  deriving DecidableEq, Repr

/-- Models `u64::checked_sub`: `none` exactly when the subtraction would underflow. -/
def checkedSub (id v : Nat) : Option Nat :=
  if v ≤ id then some (id - v) else none

/-- Applying one signed relative offset to an identifier, as in the closure
inside `BufferEntry::dependencies_in`: negative offsets go through
`checked_sub`, non-negative ones through `checked_add` (total on `Nat`). -/
def applyOff (id : Nat) (v : Int) : Option Nat :=
  if v < 0 then checkedSub id (-v).toNat else some (id + v.toNat)

/-- Mirrors `BufferEntry::dependencies_in` in `src/buffer/mod.rs`: the
predecessor identifiers of `id`, with offsets that underflow dropped. -/
def BufferEntry.dependencies_in (id : Nat) : List Nat :=
  (match id % 5 with
   | 0 => [-15, -5, -4, -1, 1]
   | 1 => [1, 3]
   | 2 => [1]
   | 3 => []
   | 4 => [-2, -1]
   | _ => ([] : List Int)).filterMap (applyOff id)

/-- Mirrors `BufferEntry::dependencies_out` in `src/buffer/mod.rs`. The raw
`u64` subtractions there cannot underflow, because `id % 5 = r` forces
`id ≥ r`; `Nat` subtraction therefore agrees with the source. -/
def BufferEntry.dependencies_out (e : BufferEntry) : List Nat :=
  match e.id % 5 with
  | 0 => [e.id + 5, e.id + 15]
  | 1 => [e.id - 1, e.id + 4]
  | 2 => [e.id - 1, e.id + 2]
  | 3 => [e.id - 1, e.id + 1]
  | 4 => [e.id - 3, e.id + 1]
  | _ => []

/-- Mirrors `BufferEntry::new_id`. -/
def BufferEntry.new_id (id : Nat) : BufferEntry :=
  { hashes := [], signature := none, id := id, payload := none,
    dependencies := BufferEntry.dependencies_in id, state := State.NotReady }

/-- Mirrors `BufferEntry::new`. -/
def BufferEntry.new (id : Nat) (payload : List Nat) : BufferEntry :=
  { BufferEntry.new_id id with payload := some payload }

/-- Mirrors `BufferEntry::compute_total_hash` (a placeholder in the source:
it returns 32 zero bytes). -/
def BufferEntry.compute_total_hash (_e : BufferEntry) : List Nat :=
  List.replicate 32 0

/-- Mirrors `BufferEntry::compare_hash`. -/
def BufferEntry.compare_hash (e : BufferEntry) (hash : List Nat) : Except Error Unit :=
  if e.state ≠ State.Authenticated then .error .NotAuthenticated
  else if hash ∈ e.hashes then .ok ()
  else .error .BadAuthentication

/-- Mirrors `BufferEntry::dummy` from the test helper in `src/buffer/mod.rs`. -/
def BufferEntry.dummy (id : Nat) : BufferEntry :=
  BufferEntry.new id (List.replicate 20 42)

/-- Mirrors `Buffer` in `src/buffer/mod.rs`. -/
structure Buffer where
  buffer : List (Option BufferEntry)
  lowest_id : Nat
  latest_id : Nat
  next_node_id_hash : Nat
  state_to_pop : State
  deriving DecidableEq, Repr

/-- Mirrors `Buffer::new`. -/
def Buffer.new (is_send : Bool) : Buffer :=
  { buffer := List.replicate BUFF_SIZE none,
    lowest_id := 0, latest_id := 0, next_node_id_hash := 3,
    state_to_pop := if is_send then State.ReadySent else State.Authenticated }

/-- Mirrors `Buffer::get_or_create`: window check, then ensure the slot at
`id % BUFF_SIZE` holds an entry with this id. -/
def Buffer.get_or_create (b : Buffer) (id : Nat) : Except Error Buffer :=
  if id < b.lowest_id ∨ b.lowest_id + BUFF_SIZE ≤ id then .error .OutOfBoundId
  else
    match b.buffer.getD (id % BUFF_SIZE) none with
    | some e =>
      if e.id ≠ id then
        .ok { b with buffer := b.buffer.set (id % BUFF_SIZE) (some (BufferEntry.new_id id)) }
      else .ok b
    | none => .ok { b with buffer := b.buffer.set (id % BUFF_SIZE) (some (BufferEntry.new_id id)) }

/-- Wraps `Buffer.get_or_create` as a total state transformer (on error the Rust
method leaves the buffer untouched). -/
def Buffer.gocState (b : Buffer) (id : Nat) : Buffer :=
  match b.get_or_create id with
  | .ok b' => b'
  | .error _ => b

/-- Writing through the mutable handle of the slot at `id % BUFF_SIZE`:
apply `f` to the entry there. (Callers only use this on a slot that was just
read or created, so the slot is occupied; on an empty slot this rewrites
`none` to `none`, leaving the buffer unchanged.) -/
def Buffer.modifySlot (b : Buffer) (id : Nat) (f : BufferEntry → BufferEntry) : Buffer :=
  { b with buffer := b.buffer.set (id % BUFF_SIZE) ((b.buffer.getD (id % BUFF_SIZE) none).map f) }

/-- Mirrors the method `Buffer::next_node_id_hash` (forward-cursor
read-and-advance; `saturating_sub` is `Nat` subtraction). Named
`nextNodeIdHash` because the structure field of the same name exists. -/
def Buffer.nextNodeIdHash (b : Buffer) : Nat × Buffer :=
  let id := b.next_node_id_hash
  (id, { b with next_node_id_hash :=
    match id % 5 with
    | 0 => id + 8
    | 1 => id - 1
    | 2 => id + 2
    | 3 => id - 1
    | 4 => id - 3
    | _ => id })

/-- The loop body of `Buffer::pop_ready_in_sequence`, with the loop counter
(`for _ in 0..BUFF_SIZE`) as structural fuel. -/
def Buffer.popAux : Nat → Buffer → List BufferEntry × Buffer
  | 0, b => ([], b)
  | fuel + 1, b =>
    match b.buffer.getD (b.lowest_id % BUFF_SIZE) none with
    | some e =>
      if e.id = b.lowest_id ∧ e.state = b.state_to_pop then
        let r := Buffer.popAux fuel
          { b with buffer := b.buffer.set (b.lowest_id % BUFF_SIZE) none,
                   lowest_id := b.lowest_id + 1 }
        (e :: r.1, r.2)
      else ([], b)
    | none => ([], b)

/-- Mirrors `Buffer::pop_ready_in_sequence`. -/
def Buffer.pop_ready_in_sequence (b : Buffer) : List BufferEntry × Buffer :=
  Buffer.popAux BUFF_SIZE b

/-- Mirrors `SendBuffer::insert_in_sequence` in `src/buffer/send_buf.rs`
(`node.id.saturating_sub(1)` is `Nat` subtraction). -/
def Buffer.insert_in_sequence (b : Buffer) (node : BufferEntry) : Except Error Unit × Buffer :=
  if node.id < b.lowest_id ∨ b.lowest_id + BUFF_SIZE ≤ node.id then (.error .OutOfBoundId, b)
  else if node.id - 1 ≠ b.latest_id then (.error .IllegalInsert, b)
  else
    match ({ b with latest_id := node.id } : Buffer).get_or_create node.id with
    | .error e => (.error e, { b with latest_id := node.id })
    | .ok b2 => (.ok (), b2.modifySlot node.id (fun e => { e with payload := node.payload }))

/-- The successor loop of `SendBuffer::forwards_hash`: `get_or_create` each
successor and append the hash, stopping at the first error (the `?` operator
keeps the mutations already made). -/
def Buffer.pushHashes (hash : List Nat) : Buffer → List Nat → Except Error Unit × Buffer
  | b, [] => (.ok (), b)
  | b, s :: rest =>
    match b.get_or_create s with
    | .error e => (.error e, b)
    | .ok b' => Buffer.pushHashes hash
        (b'.modifySlot s (fun e => { e with hashes := e.hashes ++ [hash] })) rest

/-- Mirrors `SendBuffer::forwards_hash` in `src/buffer/send_buf.rs`. -/
def Buffer.forwards_hash (b : Buffer) (id : Nat) : Except Error Unit × Buffer :=
  match b.buffer.getD (id % BUFF_SIZE) none with
  | none => (.ok (), b)
  | some entry =>
    if entry.state = State.ReadySent then (.ok (), b)
    else if entry.id ≠ id then (.error .OutOfBoundId, b)
    else if entry.dependencies.length ≠ entry.hashes.length then (.error .MissingHash, b)
    else if ((entry.dependencies_out.max?.map
              (fun m => decide (b.lowest_id + BUFF_SIZE ≤ m))).getD false) then
      (.error .OutOfBoundId, b)
    else
      let hash := entry.compute_total_hash
      let b1 := b.modifySlot id (fun e => { e with state := State.ReadySent })
      Buffer.pushHashes hash b1 entry.dependencies_out

/-- Linear search for an authenticated parent whose stored hashes contain
this node's total hash: the parent loop of `RecvBuf::authenticate_node` in
`src/buffer/recv_buf.rs`. Returns `true` when a match was found (the loop's
`break` after setting the state), propagates `BadAuthentication`, and skips
absent, stale or unauthenticated parents. -/
def Buffer.tryParents (b : Buffer) (hash : List Nat) : List Nat → Except Error Bool
  | [] => .ok false
  | pid :: rest =>
    match b.buffer.getD (pid % BUFF_SIZE) none with
    | none => b.tryParents hash rest
    | some parent =>
      if parent.id ≠ pid ∨ parent.state ≠ State.Authenticated then b.tryParents hash rest
      else
        match parent.compare_hash hash with
        | .ok _ => .ok true
        | .error Error.NotAuthenticated => b.tryParents hash rest
        | .error e => .error e

/-- Mirrors `RecvBuf::authenticate_node` in `src/buffer/recv_buf.rs`. The Rust
recursion (a node that becomes authenticated recurses into its predecessor
list) terminates because it never revisits an authenticated entry; here it is
driven by structural fuel, with `Sum.inl id` for a call on one node and
`Sum.inr children` for the loop over a predecessor list. Any sufficiently
large fuel reproduces the source behaviour. -/
def Buffer.authGo : Nat → Buffer → Sum Nat (List Nat) → Except Error Unit × Buffer
  | 0, b, _ => (.ok (), b)
  | _ + 1, b, Sum.inr [] => (.ok (), b)
  | fuel + 1, b, Sum.inr (c :: cs) =>
    match Buffer.authGo fuel b (Sum.inl c) with
    | (.ok _, b') => Buffer.authGo fuel b' (Sum.inr cs)
    | r => r
  | fuel + 1, b, Sum.inl id =>
    match b.buffer.getD (id % BUFF_SIZE) none with
    | none => (.ok (), b)
    | some entry =>
      if entry.id ≠ id then (.ok (), b)
      else if entry.state = State.Authenticated then (.ok (), b)
      else
        let step : Except Error Buffer :=
          if entry.signature.isSome then
            -- Signature verification is a placeholder in the source
            -- ("for now assumes that it is always true").
            .ok (b.modifySlot id (fun e => { e with state := State.Authenticated }))
          else
            match b.tryParents entry.compute_total_hash entry.dependencies_out with
            | .ok true => .ok (b.modifySlot id (fun e => { e with state := State.Authenticated }))
            | .ok false => .ok b
            | .error e => .error e
        match step with
        | .error e => (.error e, b)
        | .ok b2 =>
          match b2.buffer.getD (id % BUFF_SIZE) none with
          | none => (.ok (), b2)
          | some e2 =>
            match e2.state with
            | State.Authenticated => Buffer.authGo fuel b2 (Sum.inr e2.dependencies)
            | State.BadAuthentication => (.error .BadAuthentication, b2)
            | _ => (.ok (), b2)

/-- Entry point of `RecvBuf::authenticate_node`. -/
def Buffer.authenticate_node (fuel : Nat) (b : Buffer) (id : Nat) : Except Error Unit × Buffer :=
  Buffer.authGo fuel b (Sum.inl id)

/-- Mirrors `RecvBuf::insert` in `src/buffer/recv_buf.rs`: window check,
idempotent when the slot already holds the same identifier, otherwise place
the node with state `NotReady` and immediately try to authenticate it. -/
def Buffer.insert (fuel : Nat) (b : Buffer) (node : BufferEntry) : Except Error Unit × Buffer :=
  if node.id < b.lowest_id ∨ b.lowest_id + BUFF_SIZE ≤ node.id then (.error .OutOfBoundId, b)
  else if (b.buffer.getD (node.id % BUFF_SIZE) none).any (fun e => e.id == node.id) then
    (.ok (), b)
  else
    Buffer.authenticate_node fuel
      { b with buffer := b.buffer.set (node.id % BUFF_SIZE)
                 (some { node with state := State.NotReady }) }
      node.id

/-! ## The wire codec (`src/buffer/bytes.rs`)

`integer_encoding::VarInt` uses 7-bit little-endian continuation bytes; both
VarInts are written byte-reversed so the decoder can read from the tail of the
buffer through fixed 8-byte windows. `varNatGo` carries structural fuel; 10
bytes cover every value below `128 ^ 10`, in particular every `u64`. -/

def varNatGo : Nat → Nat → List Nat
  | 0, _ => []
  | fuel + 1, n => if n < 128 then [n] else (n % 128 + 128) :: varNatGo fuel (n / 128)

/-- VarInt encoding of `n` (low 7-bit group first). -/
def varNat (n : Nat) : List Nat := varNatGo 10 n

/-- VarInt decoding from the front of a byte list: the value and the number of
bytes consumed, or `none` when the list ends before a terminating byte. -/
def decodeVar : List Nat → Option (Nat × Nat)
  | [] => none
  | b :: rest =>
    if b < 128 then some (b, 1)
    else
      match decodeVar rest with
      | some (v, l) => some (v * 128 + (b - 128), l + 1)
      | none => none

/-- Mirrors `BufferEntry::encode`: append the hashes, the optional signature,
the byte-reversed VarInt of the hash-and-signature length, then the
byte-reversed VarInt of the id, onto a buffer already holding the payload.
`encode_var` writes into an 8-byte scratch array and a VarInt longer than
8 bytes cannot be produced there, hence the guard. -/
def BufferEntry.encode (e : BufferEntry) (buf : List Nat) : Option (List Nat) :=
  let bytesLen := 32 * e.hashes.length + (if e.signature.isSome then 64 else 0)
  let vLen := varNat bytesLen
  let vId := varNat e.id
  if vLen.length ≤ 8 ∧ vId.length ≤ 8 then
    some (buf ++ e.hashes.flatten ++ (match e.signature with | some s => s | none => []) ++
          vLen.reverse ++ vId.reverse)
  else none

/-- The hash-reading loop of `BufferEntry::decode`: take `n` 32-byte hashes
from the front, failing when fewer than 32 bytes remain. -/
def readHashes : Nat → List Nat → Option (List (List Nat) × List Nat)
  | 0, rest => some ([], rest)
  | n + 1, rest =>
    if 32 ≤ rest.length then
      match readHashes n (rest.drop 32) with
      | some (hs, r) => some (rest.take 32 :: hs, r)
      | none => none
    else none

/-- Mirrors `BufferEntry::decode`. Each slice the source takes out of the byte
buffer panics when out of range (`copy_from_slice`, `usize` underflow); those
panics are modelled as `none`. The id is decoded from the reversed last
8 bytes, the region length from the reversed 8 bytes before it, the payload is
the prefix before the region, and the region splits into
`|dependencies_in id|` hashes followed by an optional 64-byte signature. -/
def BufferEntry.decode (buf : List Nat) : Option BufferEntry :=
  if buf.length < 8 then none
  else
    (decodeVar (buf.drop (buf.length - 8)).reverse).bind fun p1 =>
      let id := p1.1
      let lenId := p1.2
      if buf.length < lenId + 8 then none
      else
        (decodeVar ((buf.take (buf.length - lenId)).drop (buf.length - lenId - 8)).reverse).bind
          fun p2 =>
            let bytesLen := p2.1
            let lenLen := p2.2
            if buf.length < lenId + lenLen + bytesLen then none
            else
              let splitIdx := buf.length - lenId - lenLen - bytesLen
              let payload := buf.take splitIdx
              let region := (buf.drop splitIdx).take bytesLen
              (readHashes (BufferEntry.dependencies_in id).length region).bind fun hr =>
                (if hr.2 = [] then some none
                 else if 64 ≤ hr.2.length then some (some (hr.2.take 64))
                 else none).bind fun signature =>
                  some { hashes := hr.1, signature := signature, id := id,
                         payload := some payload,
                         dependencies := BufferEntry.dependencies_in id,
                         state := State.NotReady }

/-! ## Graph lemmas (claims C3 and C7) -/

/-- Arithmetic characterization of membership in `dependencies_in`.
`i + 15 = j` encodes `15 ≤ j ∧ i = j - 15` without `Nat` truncation. -/
theorem mem_dependencies_in (j i : Nat) :
    i ∈ BufferEntry.dependencies_in j ↔
      (j % 5 = 0 ∧ (i + 15 = j ∨ i + 5 = j ∨ i + 4 = j ∨ i + 1 = j ∨ i = j + 1)) ∨
      (j % 5 = 1 ∧ (i = j + 1 ∨ i = j + 3)) ∨
      (j % 5 = 2 ∧ i = j + 1) ∨
      (j % 5 = 4 ∧ (i + 2 = j ∨ i + 1 = j)) := by
  have h5 : j % 5 = 0 ∨ j % 5 = 1 ∨ j % 5 = 2 ∨ j % 5 = 3 ∨ j % 5 = 4 := by omega
  rcases h5 with h | h | h | h | h <;>
    simp only [BufferEntry.dependencies_in, h, List.filterMap_cons, List.filterMap_nil,
      applyOff, checkedSub] <;>
    norm_num <;> (try split_ifs) <;> (try simp) <;> omega

/-- Arithmetic characterization of membership in `dependencies_out`. -/
theorem mem_dependencies_out (e : BufferEntry) (j : Nat) :
    j ∈ e.dependencies_out ↔
      (e.id % 5 = 0 ∧ (j = e.id + 5 ∨ j = e.id + 15)) ∨
      (e.id % 5 = 1 ∧ (j + 1 = e.id ∨ j = e.id + 4)) ∨
      (e.id % 5 = 2 ∧ (j + 1 = e.id ∨ j = e.id + 2)) ∨
      (e.id % 5 = 3 ∧ (j + 1 = e.id ∨ j = e.id + 1)) ∨
      (e.id % 5 = 4 ∧ (j + 3 = e.id ∨ j = e.id + 1)) := by
  have h5 : e.id % 5 = 0 ∨ e.id % 5 = 1 ∨ e.id % 5 = 2 ∨ e.id % 5 = 3 ∨ e.id % 5 = 4 := by
    omega
  rcases h5 with h | h | h | h | h <;>
    simp only [BufferEntry.dependencies_out, h] <;> simp <;> omega

/-- C3: the predecessor and successor functions are inverse relations:
`j ∈ dependencies_out(entry with id i)` iff `i ∈ dependencies_in(j)`.
With identifiers modelled as `Nat` (all non-negative, underflowing offsets
dropped on both sides), this holds unconditionally. -/
theorem successors_predecessors_inverse (e : BufferEntry) (j : Nat) :
    j ∈ e.dependencies_out ↔ e.id ∈ BufferEntry.dependencies_in j := by
  rw [mem_dependencies_out, mem_dependencies_in]
  omega

/-- The spec's own description of `predecessors(id)` (§4.1 of the spec): per
residue `r = id mod 5` a table of relative offsets, applied to `id` in order,
an application that would go below zero being silently dropped. Written with
integer arithmetic, independently of the source's `checked_sub/checked_add`. -/
def predecessorsSpec (id : Nat) : List Nat :=
  (match id % 5 with
   | 0 => [-15, -5, -4, -1, 1]
   | 1 => [1, 3]
   | 2 => [1]
   | 3 => []
   | 4 => [-2, -1]
   | _ => ([] : List Int)).filterMap
    (fun v => if (id : Int) + v < 0 then none else some ((id : Int) + v).toNat)

/-- The two offset-application functions agree. -/
theorem applyOff_eq_specApply (id : Nat) (v : Int) :
    applyOff id v = (if (id : Int) + v < 0 then none else some ((id : Int) + v).toNat) := by
  unfold applyOff checkedSub
  split_ifs <;> first
    | rfl
    | (exfalso; omega)
    | (congr 1; omega)

/-- C7: `dependencies_in` computes exactly the spec's offset table with the
underflow filter. -/
theorem dependencies_in_eq_spec (id : Nat) :
    BufferEntry.dependencies_in id = predecessorsSpec id := by
  unfold BufferEntry.dependencies_in predecessorsSpec
  rw [funext (applyOff_eq_specApply id)]

/-! ## The send saturation-and-drain scenario (claim C2) -/

/-- Insert dummy entries for the given identifiers in order, collecting each
result (mirrors the insert loop of `test_send_buffer` in
`src/buffer/send_buf.rs`). -/
def insertSeq (b : Buffer) (ids : List Nat) : List (Except Error Unit) × Buffer :=
  ids.foldl (fun acc i =>
    let r := acc.2.insert_in_sequence (BufferEntry.dummy i)
    (acc.1 ++ [r.1], r.2)) ([], b)

/-- The 33 insert attempts (ids 0..32) on a fresh send buffer. -/
def c2Inserts : List (Except Error Unit) × Buffer := insertSeq (Buffer.new true) (List.range 33)

/-- The saturated send buffer, after the failed 33rd insert. -/
def c2Full : Buffer := c2Inserts.2

/-- The buffer after `forwards_hash 3` succeeded. -/
def c2Fwd3 : Buffer := (c2Full.forwards_hash 3).2

/-- One step of driving the forward cursor: read it, then forward that id. -/
def driveStep (b : Buffer) : Buffer :=
  let r := b.nextNodeIdHash
  (r.2.forwards_hash r.1).2

/-- The buffer after nine cursor-driven forwarding steps. -/
def c2Driven : Buffer := driveStep^[9] c2Fwd3

/-- C2: on a fresh send buffer, inserts 0..31 all succeed and the insert at
id 32 fails with `OutOfBoundId`; `forwards_hash` on each of 0, 1, 2, 4, 5
fails with `MissingHash` while `forwards_hash 3` succeeds; and after nine
iterations of reading the forward cursor and forwarding the returned id,
`pop_ready_in_sequence` yields exactly the five entries 0..4 and `lowest_id`
becomes 5. -/
theorem c2_send_saturation_drain :
    c2Inserts.1 = List.replicate 32 (Except.ok ()) ++ [Except.error Error.OutOfBoundId] ∧
    (c2Full.forwards_hash 0).1 = Except.error Error.MissingHash ∧
    (c2Full.forwards_hash 1).1 = Except.error Error.MissingHash ∧
    (c2Full.forwards_hash 2).1 = Except.error Error.MissingHash ∧
    (c2Full.forwards_hash 4).1 = Except.error Error.MissingHash ∧
    (c2Full.forwards_hash 5).1 = Except.error Error.MissingHash ∧
    (c2Full.forwards_hash 3).1 = Except.ok () ∧
    c2Driven.pop_ready_in_sequence.1.map (fun e => e.id) = [0, 1, 2, 3, 4] ∧
    c2Driven.pop_ready_in_sequence.2.lowest_id = 5 := by
  decide

/-! ## Forwarding on an empty slot (claim C10) -/

/-- C10: `forwards_hash` on an identifier whose slot is empty returns `Ok`
and leaves the buffer untouched (the `if let Some` in the source falls
through to `Ok(())`); in particular it does not fail with `OutOfBoundId`. -/
theorem forwards_hash_empty_slot (b : Buffer) (id : Nat)
    (h : b.buffer.getD (id % BUFF_SIZE) none = none) :
    b.forwards_hash id = (Except.ok (), b) := by
  unfold Buffer.forwards_hash
  rw [h]

/-- Witness for C10 at a concrete input: a fresh send buffer and id 7. -/
theorem forwards_hash_empty_slot_witness :
    (Buffer.new true).forwards_hash 7 = (Except.ok (), Buffer.new true) :=
  forwards_hash_empty_slot (Buffer.new true) 7 (by decide)

/-! ## Send-side sequencing errors (claim C5) -/

/-- Counterexample to C5 as stated: on a freshly created empty send buffer,
inserting an entry with id 1 does NOT fail with `IllegalInsert` — it
succeeds, because the check is `id.saturating_sub(1) != latest_id` and
`1 - 1 = 0 = latest_id` on a fresh buffer. -/
theorem insert_id_one_on_fresh_succeeds :
    ((Buffer.new true).insert_in_sequence (BufferEntry.dummy 1)).1 = Except.ok () := by
  decide

/-- An in-window `get_or_create` always succeeds. -/
theorem get_or_create_ok (b : Buffer) (id : Nat)
    (hlo : b.lowest_id ≤ id) (hhi : id < b.lowest_id + BUFF_SIZE) :
    ∃ b', b.get_or_create id = .ok b' := by
  unfold Buffer.get_or_create
  rw [if_neg (by omega)]
  rcases hslot : b.buffer.getD (id % BUFF_SIZE) none with _ | e
  · exact ⟨_, rfl⟩
  · dsimp only
    split_ifs <;> exact ⟨_, rfl⟩

/-- When the target slot already holds an entry with the requested id,
`get_or_create` changes nothing. -/
theorem get_or_create_same_id (b : Buffer) (id : Nat) (e0 : BufferEntry)
    (hlo : b.lowest_id ≤ id) (hhi : id < b.lowest_id + BUFF_SIZE)
    (hslot : b.buffer.getD (id % BUFF_SIZE) none = some e0) (hid : e0.id = id) :
    b.get_or_create id = .ok b := by
  unfold Buffer.get_or_create
  rw [if_neg (by omega), hslot]
  dsimp only
  rw [if_neg (by simp [hid])]

/-- C5 (amended): for an in-window identifier, `insert_in_sequence` fails
with `IllegalInsert` exactly when `entry.id.saturating_sub(1) ≠ latest_id`,
i.e. unless `entry.id = latest_id + 1` or (`latest_id = 0` and
`entry.id ∈ {0, 1}`). -/
theorem insert_in_sequence_illegal_iff (b : Buffer) (node : BufferEntry)
    (hlo : b.lowest_id ≤ node.id) (hhi : node.id < b.lowest_id + BUFF_SIZE) :
    (b.insert_in_sequence node).1 = Except.error Error.IllegalInsert ↔
      node.id - 1 ≠ b.latest_id := by
  by_cases hseq : node.id - 1 ≠ b.latest_id
  · unfold Buffer.insert_in_sequence
    rw [if_neg (by omega), if_pos hseq]
    simpa using hseq
  · obtain ⟨b2, hb2⟩ := get_or_create_ok { b with latest_id := node.id } node.id hlo hhi
    unfold Buffer.insert_in_sequence
    rw [if_neg (by omega), if_neg hseq, hb2]
    simpa using hseq

/-- Witness for C5's amended rule: after inserting 0..4 the buffer has
`latest_id = 4`, and inserting id 6 fails with `IllegalInsert`. -/
theorem insert_in_sequence_illegal_witness :
    ((insertSeq (Buffer.new true) (List.range 5)).2.insert_in_sequence
        (BufferEntry.dummy 6)).1 = Except.error Error.IllegalInsert :=
  (insert_in_sequence_illegal_iff (insertSeq (Buffer.new true) (List.range 5)).2
    (BufferEntry.dummy 6) (by decide) (by decide)).mpr (by decide)

/-! ## Frame property of a successful re-insert (claim C9) -/

/-- C9: when `insert_in_sequence` succeeds and the target slot already holds
an entry with the same id (for instance one created earlier by hash
forwarding), the only changes are that entry's payload and the buffer's
`latest_id`: its hashes, signature, dependencies and state, every other
slot, `lowest_id` and the forward cursor are untouched. -/
theorem insert_in_sequence_frame (b : Buffer) (node e0 : BufferEntry)
    (hlo : b.lowest_id ≤ node.id) (hhi : node.id < b.lowest_id + BUFF_SIZE)
    (hseq : node.id - 1 = b.latest_id)
    (hslot : b.buffer.getD (node.id % BUFF_SIZE) none = some e0)
    (hid : e0.id = node.id) :
    b.insert_in_sequence node =
      (Except.ok (),
        { b with latest_id := node.id,
                 buffer := b.buffer.set (node.id % BUFF_SIZE)
                   (some { e0 with payload := node.payload }) }) := by
  have hg : ({ b with latest_id := node.id } : Buffer).get_or_create node.id =
      .ok { b with latest_id := node.id } :=
    get_or_create_same_id _ node.id e0 hlo hhi hslot hid
  unfold Buffer.insert_in_sequence
  rw [if_neg (by omega), if_neg (by omega), hg]
  unfold Buffer.modifySlot
  dsimp only
  rw [hslot]
  rfl

/-- The expected result of the C9 witness run. -/
def c9Expected : Buffer :=
  { (Buffer.new true).gocState 0 with
      latest_id := 0,
      buffer := ((Buffer.new true).gocState 0).buffer.set 0
        (some { BufferEntry.new_id 0 with payload := some [5, 6] }) }

/-- Witness for C9: re-inserting id 0 over the fresh entry created by
`get_or_create` changes only that entry's payload and `latest_id`. -/
theorem insert_in_sequence_frame_witness :
    ((Buffer.new true).gocState 0).insert_in_sequence (BufferEntry.new 0 [5, 6]) =
      (Except.ok (), c9Expected) :=
  insert_in_sequence_frame ((Buffer.new true).gocState 0) (BufferEntry.new 0 [5, 6])
    (BufferEntry.new_id 0) (by decide) (by decide) (by decide) (by decide) (by decide)

/-! ## Bad authentication is not latched by the code (claim C4) -/

/-- A receive-side parent entry (id 4) carrying a signature, whose stored
hash list does not contain the all-zero total hash. -/
def c4Parent : BufferEntry :=
  { hashes := [List.replicate 32 1], signature := some (List.replicate 64 1),
    id := 4, payload := some [9], dependencies := BufferEntry.dependencies_in 4,
    state := State.NotReady }

/-- An unsigned child entry (id 3) whose successors are 2 and 4. -/
def c4Child : BufferEntry :=
  { hashes := [], signature := none, id := 3, payload := some [8],
    dependencies := BufferEntry.dependencies_in 3, state := State.NotReady }

/-- A second parent (id 2) carrying a signature whose stored hashes do
contain the all-zero total hash. -/
def c4Parent2 : BufferEntry :=
  { hashes := [List.replicate 32 0], signature := some (List.replicate 64 1),
    id := 2, payload := some [7], dependencies := BufferEntry.dependencies_in 2,
    state := State.NotReady }

/-- Receive buffer holding the authenticated parent id 4. -/
def c4Buf1 : Buffer := ((Buffer.new false).insert 64 c4Parent).2

/-- The buffer after the child id 3 was inserted (authentication against the
parent fails). -/
def c4Buf2 : Buffer := (c4Buf1.insert 64 c4Child).2

/-- C4, behaviour of the code at the failing input: inserting the child under
an authenticated parent with no matching hash propagates the
`BadAuthentication` error, but the child's state is left at `NotReady` — it
is NOT set to `BadAuthentication` — and after a second parent with a matching
hash is inserted the same child becomes `Authenticated`, so the failure does
not latch. -/
theorem bad_authentication_not_latched :
    (c4Buf1.buffer.getD 4 none).map (fun e => e.state) = some State.Authenticated ∧
    (c4Buf1.insert 64 c4Child).1 = Except.error Error.BadAuthentication ∧
    (c4Buf2.buffer.getD 3 none).map (fun e => e.state) = some State.NotReady ∧
    ((c4Buf2.insert 64 c4Parent2).2.buffer.getD 3 none).map (fun e => e.state) =
      some State.Authenticated := by
  decide

/-! ## Characterization of `pop_ready_in_sequence` (claim C6) -/

/-- The pop loop's continue-condition: the slot at `lowest_id mod BUFF_SIZE`
holds an entry whose id is exactly `lowest_id` and whose state is the
buffer's pop target state. -/
def Buffer.ReadyAt (b : Buffer) : Prop :=
  match b.buffer.getD (b.lowest_id % BUFF_SIZE) none with
  | some e => e.id = b.lowest_id ∧ e.state = b.state_to_pop
  | none => False

/-- Fuel-indexed analysis of the pop loop: the popped ids are the consecutive
run starting at `lowest_id`, `lowest_id` advances by exactly the number of
pops, every popped entry has the pop target state, the pop target state is
unchanged, and the loop stops only by exhausting its fuel or at the first
slot that is empty, stale, or in the wrong state. -/
theorem popAux_spec (fuel : Nat) (b : Buffer) :
    (Buffer.popAux fuel b).1.map (fun e => e.id) =
      List.range' b.lowest_id (Buffer.popAux fuel b).1.length ∧
    (Buffer.popAux fuel b).2.lowest_id = b.lowest_id + (Buffer.popAux fuel b).1.length ∧
    (∀ e ∈ (Buffer.popAux fuel b).1, e.state = b.state_to_pop) ∧
    (Buffer.popAux fuel b).2.state_to_pop = b.state_to_pop ∧
    ((Buffer.popAux fuel b).1.length = fuel ∨ ¬ (Buffer.popAux fuel b).2.ReadyAt) := by
  induction fuel generalizing b with
  | zero => simp [Buffer.popAux]
  | succ n ih =>
    unfold Buffer.popAux
    rcases hslot : b.buffer.getD (b.lowest_id % BUFF_SIZE) none with _ | e
    · dsimp only
      refine ⟨by simp, by simp, by simp, rfl, Or.inr ?_⟩
      unfold Buffer.ReadyAt
      rw [hslot]
      simp
    · dsimp only
      by_cases hc : e.id = b.lowest_id ∧ e.state = b.state_to_pop
      · rw [if_pos hc]
        obtain ⟨ih1, ih2, ih3, ih4, ih5⟩ := ih
          { b with buffer := b.buffer.set (b.lowest_id % BUFF_SIZE) none,
                   lowest_id := b.lowest_id + 1 }
        dsimp only at ih1 ih2 ih3 ih4 ih5 ⊢
        refine ⟨?_, ?_, ?_, ?_, ?_⟩
        · simp only [List.map_cons, List.length_cons, hc.1]
          rw [List.range'_succ, ih1]
        · simpa [Nat.add_comm, Nat.add_assoc, Nat.add_left_comm] using ih2
        · intro x hx
          rcases List.mem_cons.mp hx with h | h
          · rw [h]; exact hc.2
          · exact ih3 x h
        · exact ih4
        · rcases ih5 with h | h
          · exact Or.inl (by simp [h])
          · exact Or.inr h
      · rw [if_neg hc]
        refine ⟨by simp, by simp, by simp, rfl, Or.inr ?_⟩
        unfold Buffer.ReadyAt
        rw [hslot]
        exact hc

/-- C6: `pop_ready_in_sequence` yields the maximal run of entries starting at
`lowest_id` whose slots hold entries with exactly those ids in the pop target
state: the returned id sequence is `lowest_id, lowest_id+1, ...` (consecutive,
strictly increasing, no gaps), `lowest_id` is advanced by exactly one per
popped entry, every yielded entry has the pop target state, and unless all
`BUFF_SIZE` loop iterations popped, the loop stopped at the first empty slot,
stale slot, or state mismatch (`¬ ReadyAt` of the final state). -/
theorem pop_ready_in_sequence_spec (b : Buffer) :
    b.pop_ready_in_sequence.1.map (fun e => e.id) =
      List.range' b.lowest_id b.pop_ready_in_sequence.1.length ∧
    b.pop_ready_in_sequence.2.lowest_id = b.lowest_id + b.pop_ready_in_sequence.1.length ∧
    (∀ e ∈ b.pop_ready_in_sequence.1, e.state = b.state_to_pop) ∧
    (b.pop_ready_in_sequence.1.length = BUFF_SIZE ∨ ¬ b.pop_ready_in_sequence.2.ReadyAt) := by
  obtain ⟨h1, h2, h3, _, h5⟩ := popAux_spec BUFF_SIZE b
  exact ⟨h1, h2, h3, h5⟩

/-! ## VarInt lemmas (towards claim C1) -/

/-- With at least one byte of fuel, a VarInt encoding is never empty. -/
theorem varNatGo_length_pos (g n : Nat) (hg : 1 ≤ g) : 1 ≤ (varNatGo g n).length := by
  rcases g with _ | g'
  · omega
  · unfold varNatGo
    split_ifs <;> simp

/-- The VarInt of any value is nonempty. -/
theorem varNat_length_pos (n : Nat) : 1 ≤ (varNat n).length :=
  varNatGo_length_pos 10 n (by omega)

/-- VarInt decoding inverts VarInt encoding, regardless of trailing bytes. -/
theorem decodeVar_varNatGo : ∀ (f n : Nat) (junk : List Nat), 1 ≤ f → n < 128 ^ f →
    decodeVar (varNatGo f n ++ junk) = some (n, (varNatGo f n).length)
  | 0, _, _, hf, _ => absurd hf (by omega)
  | f + 1, n, junk, _, hn => by
    unfold varNatGo
    by_cases h : n < 128
    · rw [if_pos h]
      simp [decodeVar, h]
    · rw [if_neg h]
      have hf' : 1 ≤ f := by
        rcases Nat.eq_zero_or_pos f with h0 | h1
        · subst h0; simp at hn; omega
        · exact h1
      have hdiv : n / 128 < 128 ^ f := by
        rw [Nat.div_lt_iff_lt_mul (by norm_num : (0:Nat) < 128)]
        calc n < 128 ^ (f + 1) := hn
          _ = 128 ^ f * 128 := pow_succ 128 f
      have ihr := decodeVar_varNatGo f (n / 128) junk hf' hdiv
      show decodeVar ((n % 128 + 128) :: (varNatGo f (n / 128) ++ junk)) = _
      unfold decodeVar
      rw [if_neg (by omega), ihr]
      dsimp only
      have hval : n / 128 * 128 + (n % 128 + 128 - 128) = n := by omega
      rw [hval]
      simp

/-- Decoding inverts `varNat` for every value below `128 ^ 10`. -/
theorem decodeVar_varNat (n : Nat) (junk : List Nat) (hn : n < 128 ^ 10) :
    decodeVar (varNat n ++ junk) = some (n, (varNat n).length) :=
  decodeVar_varNatGo 10 n junk (by omega) hn

/-- A VarInt that fits in `f < g` bytes encodes a value below `128 ^ f`. -/
theorem varNatGo_len_le_imp : ∀ (f g n : Nat), 1 ≤ f → f < g →
    (varNatGo g n).length ≤ f → n < 128 ^ f
  | 0, _, _, hf, _, _ => absurd hf (by omega)
  | f + 1, g, n, _, hfg, hlen => by
    by_cases h : n < 128
    · exact lt_of_lt_of_le h (Nat.le_self_pow (by omega) 128)
    · rcases g with _ | g'
      · omega
      · have heq : varNatGo (g' + 1) n = (n % 128 + 128) :: varNatGo g' (n / 128) := by
          have h1 : varNatGo (g' + 1) n =
              if n < 128 then [n] else (n % 128 + 128) :: varNatGo g' (n / 128) := rfl
          rw [h1, if_neg h]
        rw [heq] at hlen
        simp only [List.length_cons] at hlen
        rcases Nat.eq_zero_or_pos f with hf0 | hfpos
        · subst hf0
          have hpos : 1 ≤ (varNatGo g' (n / 128)).length :=
            varNatGo_length_pos g' (n / 128) (by omega)
          omega
        · have hrec := varNatGo_len_le_imp f g' (n / 128) hfpos (by omega) (by omega)
          have hmul := (Nat.div_lt_iff_lt_mul (by norm_num : (0:Nat) < 128)).mp hrec
          calc n < 128 ^ f * 128 := hmul
            _ = 128 ^ (f + 1) := (pow_succ 128 f).symm

/-- A VarInt of at most 8 bytes encodes a value below `128 ^ 8`. -/
theorem varNat_lt_of_len_le_eight (n : Nat) (h : (varNat n).length ≤ 8) : n < 128 ^ 8 :=
  varNatGo_len_le_imp 8 10 n (by omega) (by omega) h

/-- The flattened hash area of an entry whose hashes are all 32 bytes long
has length `32 * (number of hashes)`. -/
theorem flatten_length_32 (hs : List (List Nat)) (h : ∀ x ∈ hs, x.length = 32) :
    hs.flatten.length = 32 * hs.length := by
  induction hs with
  | nil => simp
  | cons a t ih =>
    have ha : a.length = 32 := h a (List.mem_cons_self a t)
    have ht := ih (fun x hx => h x (List.mem_cons_of_mem a hx))
    simp [ha, ht]
    ring

/-- Reading back `hs.length` hashes from the flattened hash area recovers
the hashes and leaves the tail. -/
theorem readHashes_flatten (hs : List (List Nat)) (tail : List Nat)
    (h : ∀ x ∈ hs, x.length = 32) :
    readHashes hs.length (hs.flatten ++ tail) = some (hs, tail) := by
  induction hs with
  | nil => simp [readHashes]
  | cons a t ih =>
    have ha : a.length = 32 := h a (List.mem_cons_self a t)
    have ht := ih (fun x hx => h x (List.mem_cons_of_mem a hx))
    show readHashes (t.length + 1) ((a :: t).flatten ++ tail) = _
    unfold readHashes
    have hflat : (a :: t).flatten ++ tail = a ++ (t.flatten ++ tail) := by
      simp [List.flatten_cons]
    rw [hflat]
    have hlen : 32 ≤ (a ++ (t.flatten ++ tail)).length := by
      simp [ha]
    rw [if_pos hlen]
    have hdrop : (a ++ (t.flatten ++ tail)).drop 32 = t.flatten ++ tail := by
      rw [← ha, List.drop_left]
    have htake : (a ++ (t.flatten ++ tail)).take 32 = a := by
      rw [← ha, List.take_left]
    rw [hdrop, ht, htake]

/-! ## The codec round trip (claim C1) -/

/-- C1 (amended): encoding a valid entry (each hash 32 bytes, exactly one
hash per predecessor of its id, a 64-byte signature when present) onto a
buffer already holding its payload, and then decoding, reconstructs the
payload, id, hash sequence and signature — provided the bytes before the id
VarInt amount to at least 8 (`8 + |varint id| ≤ total length`), since the
decoder reads fixed 8-byte windows from the tail and fails on shorter input.
The guard inside `encode` (a `u64` id always fits its 8-byte scratch buffer)
is carried by the `encode … = some out` hypothesis. -/
theorem encode_decode_roundtrip (e : BufferEntry) (payload out : List Nat)
    (hh : ∀ x ∈ e.hashes, x.length = 32)
    (hk : e.hashes.length = (BufferEntry.dependencies_in e.id).length)
    (hsg : ∀ s, e.signature = some s → s.length = 64)
    (henc : e.encode payload = some out)
    (hlen : 8 + (varNat e.id).length ≤ out.length) :
    BufferEntry.decode out =
      some { hashes := e.hashes, signature := e.signature, id := e.id,
             payload := some payload,
             dependencies := BufferEntry.dependencies_in e.id,
             state := State.NotReady } := by
  unfold BufferEntry.encode at henc
  dsimp only at henc
  by_cases hguard :
      (varNat (32 * e.hashes.length + (if e.signature.isSome then 64 else 0))).length ≤ 8 ∧
      (varNat e.id).length ≤ 8
  swap
  · rw [if_neg hguard] at henc
    exact absurd henc (by simp)
  rw [if_pos hguard] at henc
  injection henc with hout
  set BL := 32 * e.hashes.length + (if e.signature.isSome then 64 else 0) with hBL
  set H := e.hashes.flatten with hH
  set S := (match e.signature with | some s => s | none => ([] : List Nat)) with hS
  set vL := varNat BL with hvL
  set vI := varNat e.id with hvI
  subst hout
  have hHlen : H.length = 32 * e.hashes.length := by
    rw [hH]; exact flatten_length_32 _ hh
  have hSlen : S.length = (if e.signature.isSome then 64 else 0) := by
    rcases hsig : e.signature with _ | s
    · rw [hS]; simp [hsig]
    · rw [hS]; simp only [hsig]; simp [hsg s hsig]
  have hBLlen : H.length + S.length = BL := by rw [hHlen, hSlen]
  have hIpos : 1 ≤ vI.length := by rw [hvI]; exact varNat_length_pos e.id
  have hLpos : 1 ≤ vL.length := by rw [hvL]; exact varNat_length_pos BL
  have hIle : vI.length ≤ 8 := hguard.2
  have hLle : vL.length ≤ 8 := hguard.1
  have hIlt : e.id < 128 ^ 10 := by
    have h8 := varNat_lt_of_len_le_eight e.id (by rw [← hvI]; exact hIle)
    calc e.id < 128 ^ 8 := h8
      _ < 128 ^ 10 := by norm_num
  have hBLlt : BL < 128 ^ 10 := by
    have h8 := varNat_lt_of_len_le_eight BL (by rw [← hvL]; exact hLle)
    calc BL < 128 ^ 8 := h8
      _ < 128 ^ 10 := by norm_num
  set B := payload ++ H ++ S with hB
  set A := B ++ vL.reverse with hA
  have hAlen : A.length = B.length + vL.length := by rw [hA]; simp
  have hBlen : B.length = payload.length + H.length + S.length := by rw [hB]; simp; omega
  have hNlen : (A ++ vI.reverse).length = A.length + vI.length := by simp
  have hA8 : 8 ≤ A.length := by omega
  unfold BufferEntry.decode
  rw [if_neg (by omega)]
  have hw1 : ((A ++ vI.reverse).drop ((A ++ vI.reverse).length - 8)).reverse
      = vI ++ (A.drop (A.length + vI.length - 8)).reverse := by
    rw [hNlen, List.drop_append_eq_append_drop]
    have h0 : A.length + vI.length - 8 - A.length = 0 := by omega
    rw [h0, List.drop_zero, List.reverse_append, List.reverse_reverse]
  have hdec1 : decodeVar ((A ++ vI.reverse).drop ((A ++ vI.reverse).length - 8)).reverse
      = some (e.id, vI.length) := by
    rw [hw1, hvI]
    exact decodeVar_varNat e.id _ hIlt
  rw [hdec1, Option.some_bind]
  dsimp only
  rw [if_neg (by omega)]
  have htakeA : (A ++ vI.reverse).take ((A ++ vI.reverse).length - vI.length) = A := by
    have hx : (A ++ vI.reverse).length - vI.length = A.length := by omega
    rw [hx, List.take_left]
  have hdropA : (A ++ vI.reverse).length - vI.length - 8 = A.length - 8 := by omega
  have hw2 : (A.drop (A.length - 8)).reverse
      = vL ++ (B.drop (B.length + vL.length - 8)).reverse := by
    rw [hA]
    have hAl : (B ++ vL.reverse).length = B.length + vL.length := by simp
    rw [hAl, List.drop_append_eq_append_drop]
    have h0 : B.length + vL.length - 8 - B.length = 0 := by omega
    rw [h0, List.drop_zero, List.reverse_append, List.reverse_reverse]
  have hdec2 : decodeVar (((A ++ vI.reverse).take ((A ++ vI.reverse).length - vI.length)).drop
        ((A ++ vI.reverse).length - vI.length - 8)).reverse = some (BL, vL.length) := by
    rw [htakeA, hdropA, hw2, hvL]
    exact decodeVar_varNat BL _ hBLlt
  rw [hdec2, Option.some_bind]
  dsimp only
  rw [if_neg (by omega)]
  have hsplit : (A ++ vI.reverse).length - vI.length - vL.length - BL = payload.length := by
    omega
  rw [hsplit]
  have hpay : (A ++ vI.reverse).take payload.length = payload := by
    rw [hA, hB]
    simp only [List.append_assoc]
    exact List.take_left _ _
  have hreg : ((A ++ vI.reverse).drop payload.length).take BL = H ++ S := by
    rw [hA, hB]
    simp only [List.append_assoc]
    rw [List.drop_left]
    rw [show BL = (H ++ S).length from by simp [← hBLlen]]
    rw [show H ++ (S ++ (vL.reverse ++ vI.reverse))
          = (H ++ S) ++ (vL.reverse ++ vI.reverse) from by simp [List.append_assoc]]
    exact List.take_left _ _
  rw [hpay, hreg]
  have hread : readHashes (BufferEntry.dependencies_in e.id).length (H ++ S)
      = some (e.hashes, S) := by
    rw [← hk, hH]
    exact readHashes_flatten e.hashes S hh
  rw [hread, Option.some_bind]
  dsimp only
  rcases hsig : e.signature with _ | s
  · have hSnil : S = [] := by rw [hS]; simp [hsig]
    rw [if_pos hSnil, Option.some_bind]
  · have hs64 : s.length = 64 := hsg s hsig
    have hSs : S = s := by rw [hS]; simp [hsig]
    have hSne : ¬ S = [] := by
      rw [hSs]
      intro hcon
      rw [hcon] at hs64
      simp at hs64
    rw [if_neg hSne, if_pos (by rw [hSs, hs64]), Option.some_bind, hSs,
      show s.take 64 = s from by rw [← hs64, List.take_length]]

/-- A valid entry on which the round trip fails: id 3 has no predecessors, so
an unsigned entry with a short payload encodes to fewer than 8 bytes and the
decoder's fixed 8-byte tail read fails. -/
def c1CexEntry : BufferEntry :=
  { hashes := [], signature := none, id := 3, payload := some [7, 7, 7],
    dependencies := BufferEntry.dependencies_in 3, state := State.NotReady }

/-- Counterexample to C1 as stated: `c1CexEntry` is valid (hashes match its
empty predecessor list), its encoding over its 3-byte payload is the 5-byte
buffer `[7,7,7,0,3]`, and decoding that buffer fails (the source would panic
slicing `buf[len-8..]`), so no Entry at all is reconstructed. -/
theorem decode_fails_on_short_encoding :
    (∀ x ∈ c1CexEntry.hashes, x.length = 32) ∧
    c1CexEntry.hashes.length = (BufferEntry.dependencies_in c1CexEntry.id).length ∧
    c1CexEntry.encode [7, 7, 7] = some [7, 7, 7, 0, 3] ∧
    BufferEntry.decode [7, 7, 7, 0, 3] = none := by
  decide

/-- The witness entry for the round trip: the repo's own codec test case
(id 56, one hash per predecessor filled with the predecessor id, a 64-byte
signature of 77s, payload of 56 bytes 112). -/
def c1wEntry : BufferEntry :=
  { hashes := (BufferEntry.dependencies_in 56).map (fun i => List.replicate 32 i),
    signature := some (List.replicate 64 77), id := 56, payload := none,
    dependencies := BufferEntry.dependencies_in 56, state := State.NotReady }

/-- The witness payload. -/
def c1wPayload : List Nat := List.replicate 56 112

/-- The encoded bytes of the witness entry. -/
def c1wOut : List Nat := (c1wEntry.encode c1wPayload).getD []

set_option maxRecDepth 4000 in
/-- Witness for the amended C1 at the repo's own codec test input. -/
theorem encode_decode_roundtrip_witness :
    BufferEntry.decode c1wOut =
      some { hashes := c1wEntry.hashes, signature := c1wEntry.signature, id := c1wEntry.id,
             payload := some c1wPayload,
             dependencies := BufferEntry.dependencies_in c1wEntry.id,
             state := State.NotReady } :=
  encode_decode_roundtrip c1wEntry c1wPayload c1wOut (by decide) (by decide)
    (fun s h => by injection h with h2; rw [← h2]; rfl) (by decide) (by decide)

/-! ## Reachable-state invariants (claim C8) -/

theorem getD_set_self {α : Type} (l : List α) (i : Nat) (x d : α) (h : i < l.length) :
    (l.set i x).getD i d = x := by
  simp [List.getD_eq_getElem?_getD, List.getElem?_set_self, h]

theorem getD_set_ne {α : Type} (l : List α) (i j : Nat) (x d : α) (h : i ≠ j) :
    (l.set i x).getD j d = l.getD j d := by
  simp [List.getD_eq_getElem?_getD, List.getElem?_set_ne h]

/-- The per-slot invariant: an occupied slot `i` holds an entry whose id is
congruent to `i` modulo `BUFF_SIZE` and lies inside the retention window
`[lowest_id, lowest_id + BUFF_SIZE)`. -/
def SlotInv (lo i : Nat) : Option BufferEntry → Prop
  | none => True
  | some e => e.id % BUFF_SIZE = i ∧ lo ≤ e.id ∧ e.id < lo + BUFF_SIZE

instance (lo i : Nat) (o : Option BufferEntry) : Decidable (SlotInv lo i o) :=
  match o with
  | none => isTrue trivial
  | some _e => inferInstanceAs (Decidable (_ ∧ _ ∧ _))

/-- The ring-buffer invariant (spec R1 plus the window part of R2): 32 slots,
and every occupied slot satisfies `SlotInv`. -/
def Inv (b : Buffer) : Prop :=
  b.buffer.length = BUFF_SIZE ∧
  ∀ i, i < BUFF_SIZE → SlotInv b.lowest_id i (b.buffer.getD i none)

instance (b : Buffer) : Decidable (Inv b) :=
  inferInstanceAs (Decidable (_ ∧ ∀ i, i < BUFF_SIZE → _))

theorem inv_set_entry (b : Buffer) (id : Nat) (e : BufferEntry)
    (hid : e.id = id) (hlo : b.lowest_id ≤ id) (hhi : id < b.lowest_id + BUFF_SIZE)
    (h : Inv b) :
    Inv { b with buffer := b.buffer.set (id % BUFF_SIZE) (some e) } := by
  obtain ⟨hl, hslots⟩ := h
  refine ⟨by simpa using hl, ?_⟩
  intro i hi
  dsimp only
  by_cases hip : i = id % BUFF_SIZE
  · subst hip
    rw [getD_set_self _ _ _ _ (by rw [hl]; exact Nat.mod_lt _ (by decide))]
    exact ⟨by rw [hid], by omega, by omega⟩
  · rw [getD_set_ne _ _ _ _ _ (fun hcon => hip hcon.symm)]
    exact hslots i hi

theorem inv_modifySlot (b : Buffer) (id : Nat) (f : BufferEntry → BufferEntry)
    (hf : ∀ e, (f e).id = e.id) (h : Inv b) : Inv (b.modifySlot id f) := by
  obtain ⟨hl, hslots⟩ := h
  unfold Buffer.modifySlot
  refine ⟨by simpa using hl, ?_⟩
  intro i hi
  dsimp only
  by_cases hip : i = id % BUFF_SIZE
  · subst hip
    rw [getD_set_self _ _ _ _ (by rw [hl]; exact Nat.mod_lt _ (by decide))]
    rcases hslot : b.buffer.getD (id % BUFF_SIZE) none with _ | e
    · exact trivial
    · have hsi := hslots (id % BUFF_SIZE) hi
      rw [hslot] at hsi
      obtain ⟨h1, h2, h3⟩ := hsi
      exact ⟨by rw [hf e]; exact h1, by rw [hf e]; exact h2, by rw [hf e]; exact h3⟩
  · rw [getD_set_ne _ _ _ _ _ (fun hcon => hip hcon.symm)]
    exact hslots i hi

theorem inv_get_or_create (b b' : Buffer) (id : Nat) (h : Inv b)
    (hok : b.get_or_create id = .ok b') : Inv b' := by
  unfold Buffer.get_or_create at hok
  by_cases hw : id < b.lowest_id ∨ b.lowest_id + BUFF_SIZE ≤ id
  · rw [if_pos hw] at hok
    exact absurd hok (by simp)
  · rw [if_neg hw] at hok
    split at hok
    · split_ifs at hok
      · injection hok with hb'
        subst hb'
        exact inv_set_entry b id (BufferEntry.new_id id) rfl (by omega) (by omega) h
      · injection hok with hb'
        subst hb'
        exact h
    · injection hok with hb'
      subst hb'
      exact inv_set_entry b id (BufferEntry.new_id id) rfl (by omega) (by omega) h

theorem inv_gocState (b : Buffer) (id : Nat) (h : Inv b) : Inv (b.gocState id) := by
  unfold Buffer.gocState
  rcases hg : b.get_or_create id with e | b'
  · exact h
  · exact inv_get_or_create b b' id h hg

theorem inv_pushHashes (hash : List Nat) : ∀ (l : List Nat) (b : Buffer), Inv b →
    Inv (Buffer.pushHashes hash b l).2
  | [], _, h => h
  | s :: rest, b, h => by
    unfold Buffer.pushHashes
    rcases hg : b.get_or_create s with e | b'
    · exact h
    · exact inv_pushHashes hash rest _
        (inv_modifySlot b' s _ (fun e => rfl) (inv_get_or_create b b' s h hg))

theorem inv_forwards_hash (b : Buffer) (id : Nat) (h : Inv b) :
    Inv (b.forwards_hash id).2 := by
  unfold Buffer.forwards_hash
  rcases hslot : b.buffer.getD (id % BUFF_SIZE) none with _ | entry
  · exact h
  · dsimp only
    split_ifs
    · exact h
    · exact h
    · exact h
    · exact h
    · exact inv_pushHashes _ _ _ (inv_modifySlot b id _ (fun e => rfl) h)

theorem inv_insert_in_sequence (b : Buffer) (node : BufferEntry) (h : Inv b) :
    Inv (b.insert_in_sequence node).2 := by
  unfold Buffer.insert_in_sequence
  split_ifs
  · exact h
  · exact h
  · rcases hg : ({ b with latest_id := node.id } : Buffer).get_or_create node.id with e | b2
    · exact h
    · have hb2 : Inv b2 :=
        inv_get_or_create { b with latest_id := node.id } b2 node.id h hg
      exact inv_modifySlot b2 node.id _ (fun e => rfl) hb2

theorem inv_authGo : ∀ (fuel : Nat) (b : Buffer) (t : Sum Nat (List Nat)), Inv b →
    Inv (Buffer.authGo fuel b t).2
  | 0, _, _, h => h
  | _ + 1, _, Sum.inr [], h => h
  | fuel + 1, b, Sum.inr (c :: cs), h => by
    unfold Buffer.authGo
    rcases hr : Buffer.authGo fuel b (Sum.inl c) with ⟨r1, b'⟩
    have hb' : Inv b' := by
      have hx := inv_authGo fuel b (Sum.inl c) h
      rw [hr] at hx
      exact hx
    rcases r1 with err | u
    · exact hb'
    · exact inv_authGo fuel b' (Sum.inr cs) hb'
  | fuel + 1, b, Sum.inl id, h => by
    unfold Buffer.authGo
    rcases hslot : b.buffer.getD (id % BUFF_SIZE) none with _ | entry
    · exact h
    · dsimp only
      have hib2 : Inv (b.modifySlot id (fun e => { e with state := State.Authenticated })) :=
        inv_modifySlot b id _ (fun e => rfl) h
      split_ifs with h1 h2 hsig
      · exact h
      · exact h
      · dsimp only
        split
        · exact hib2
        · split
          · exact inv_authGo fuel _ (Sum.inr _) hib2
          · exact hib2
          · exact hib2
      · rcases htp : b.tryParents entry.compute_total_hash entry.dependencies_out
          with err | bv
        · exact h
        · rcases bv with _ | _
          · dsimp only
            split
            · exact h
            · split
              · exact inv_authGo fuel _ (Sum.inr _) h
              · exact h
              · exact h
          · dsimp only
            split
            · exact hib2
            · split
              · exact inv_authGo fuel _ (Sum.inr _) hib2
              · exact hib2
              · exact hib2

theorem inv_insert (fuel : Nat) (b : Buffer) (node : BufferEntry) (h : Inv b) :
    Inv (Buffer.insert fuel b node).2 := by
  unfold Buffer.insert
  split_ifs with h1 h2
  · exact h
  · exact h
  · exact inv_authGo fuel _ _
      (inv_set_entry b node.id { node with state := State.NotReady } rfl (by omega) (by omega) h)

theorem inv_popAux : ∀ (fuel : Nat) (b : Buffer), Inv b → Inv (Buffer.popAux fuel b).2
  | 0, _, h => h
  | fuel + 1, b, h => by
    unfold Buffer.popAux
    rcases hslot : b.buffer.getD (b.lowest_id % BUFF_SIZE) none with _ | e
    · exact h
    · dsimp only
      by_cases hc : e.id = b.lowest_id ∧ e.state = b.state_to_pop
      · rw [if_pos hc]
        dsimp only
        apply inv_popAux fuel
        obtain ⟨hl, hslots⟩ := h
        refine ⟨by simpa using hl, ?_⟩
        intro i hi
        dsimp only
        by_cases hip : i = b.lowest_id % BUFF_SIZE
        · subst hip
          rw [getD_set_self _ _ _ _ (by rw [hl]; exact Nat.mod_lt _ (by decide))]
          exact trivial
        · rw [getD_set_ne _ _ _ _ _ (fun hcon => hip hcon.symm)]
          have hsi := hslots i hi
          rcases hslot2 : b.buffer.getD i none with _ | e2
          · exact trivial
          · rw [hslot2] at hsi
            obtain ⟨h1, h2, h3⟩ := hsi
            refine ⟨h1, ?_, by omega⟩
            rcases Nat.eq_or_lt_of_le h2 with heq | hlt
            · exfalso
              apply hip
              rw [← h1, ← heq]
            · omega
      · rw [if_neg hc]
        exact h

theorem inv_pop (b : Buffer) (h : Inv b) : Inv b.pop_ready_in_sequence.2 :=
  inv_popAux BUFF_SIZE b h

/-- One buffer operation: the state after any single call of `get_or_create`,
`insert_in_sequence`, `insert`, `forwards_hash`, `authenticate_node`,
`next_node_id_hash` or `pop_ready_in_sequence` (post-state taken whether the
call returned Ok or an error, since the Rust methods mutate in place). -/
inductive Step : Buffer → Buffer → Prop
  | goc (b : Buffer) (id : Nat) : Step b (b.gocState id)
  | ins_seq (b : Buffer) (node : BufferEntry) : Step b (b.insert_in_sequence node).2
  | ins (b : Buffer) (fuel : Nat) (node : BufferEntry) : Step b (Buffer.insert fuel b node).2
  | fwd (b : Buffer) (id : Nat) : Step b (b.forwards_hash id).2
  | auth (b : Buffer) (fuel : Nat) (id : Nat) :
      Step b (Buffer.authenticate_node fuel b id).2
  | cursor (b : Buffer) : Step b b.nextNodeIdHash.2
  | pop (b : Buffer) : Step b b.pop_ready_in_sequence.2

/-- States reachable from a fresh buffer by any sequence of operations. -/
def Reachable (is_send : Bool) (b : Buffer) : Prop :=
  Relation.ReflTransGen Step (Buffer.new is_send) b

theorem step_inv (b b' : Buffer) (hs : Step b b') (h : Inv b) : Inv b' := by
  cases hs with
  | goc id => exact inv_gocState b id h
  | ins_seq node => exact inv_insert_in_sequence b node h
  | ins fuel node => exact inv_insert fuel b node h
  | fwd id => exact inv_forwards_hash b id h
  | auth fuel id => exact inv_authGo fuel b (Sum.inl id) h
  | cursor => exact h
  | pop => exact inv_pop b h

/-- C8 (amended): every state reachable from a fresh buffer by any sequence
of `get_or_create`, `insert`, `insert_in_sequence`, `forwards_hash`,
`authenticate_node`, `next_node_id_hash` and `pop_ready_in_sequence` calls
satisfies: every occupied slot `i` holds an entry with `id % BUFF_SIZE = i`,
and every occupied entry's id lies in `[lowest_id, lowest_id + BUFF_SIZE)`.
(The claim's third clause, `lowest_id ≤ latest_id + 1` on the send buffer, is
refuted by `reachable_violates_latest_bound` and is dropped here.) -/
theorem reachable_inv (is_send : Bool) (b : Buffer) (h : Reachable is_send b) : Inv b := by
  induction h with
  | refl => cases is_send <;> decide
  | tail _hab hstep ih => exact step_inv _ _ hstep ih

/-- Witness for C8 at the trivial chain: the fresh send buffer. -/
theorem reachable_inv_witness : Inv (Buffer.new true) :=
  reachable_inv true (Buffer.new true) Relation.ReflTransGen.refl

/-- A reachable state violating the claimed send-side bound
`lowest_id ≤ latest_id + 1`: create slots 0..4 with `get_or_create` (no
insert, so `latest_id` stays 0), forward 3, 2, 4, 1, 0 (each has all its
predecessor hashes by then), then pop — five entries pop and `lowest_id`
becomes 5 while `latest_id` is still 0. -/
def c8s0 : Buffer := Buffer.new true
def c8s1 : Buffer := c8s0.gocState 0
def c8s2 : Buffer := c8s1.gocState 1
def c8s3 : Buffer := c8s2.gocState 2
def c8s4 : Buffer := c8s3.gocState 3
def c8s5 : Buffer := c8s4.gocState 4
def c8s6 : Buffer := (c8s5.forwards_hash 3).2
def c8s7 : Buffer := (c8s6.forwards_hash 2).2
def c8s8 : Buffer := (c8s7.forwards_hash 4).2
def c8s9 : Buffer := (c8s8.forwards_hash 1).2
def c8s10 : Buffer := (c8s9.forwards_hash 0).2
def c8Cex : Buffer := c8s10.pop_ready_in_sequence.2

theorem c8Cex_reachable : Reachable true c8Cex := by
  have h0 : Reachable true c8s0 := Relation.ReflTransGen.refl
  have h1 : Reachable true c8s1 := h0.tail (Step.goc c8s0 0)
  have h2 : Reachable true c8s2 := h1.tail (Step.goc c8s1 1)
  have h3 : Reachable true c8s3 := h2.tail (Step.goc c8s2 2)
  have h4 : Reachable true c8s4 := h3.tail (Step.goc c8s3 3)
  have h5 : Reachable true c8s5 := h4.tail (Step.goc c8s4 4)
  have h6 : Reachable true c8s6 := h5.tail (Step.fwd c8s5 3)
  have h7 : Reachable true c8s7 := h6.tail (Step.fwd c8s6 2)
  have h8 : Reachable true c8s8 := h7.tail (Step.fwd c8s7 4)
  have h9 : Reachable true c8s9 := h8.tail (Step.fwd c8s8 1)
  have h10 : Reachable true c8s10 := h9.tail (Step.fwd c8s9 0)
  exact h10.tail (Step.pop c8s10)

/-- Counterexample to C8 as stated: the reachable state `c8Cex` (a send
buffer) has `lowest_id = 5` and `latest_id = 0`, so `lowest_id ≤ latest_id + 1`
fails, while the slot-residue and window invariants still hold. -/
theorem reachable_violates_latest_bound :
    Reachable true c8Cex ∧ ¬ (c8Cex.lowest_id ≤ c8Cex.latest_id + 1) :=
  ⟨c8Cex_reachable, by decide⟩

end Alta
